import Mathlib

/- Verification development for the peer-to-peer connection core of the
   mobile chat application: the session key store and secure channel codec
   (`AESService`, src/src/types/index.ts part), and the negotiation /
   connection manager (`WebRTCManager`, src/unnamed/part_001).
   Every definition is a shallow embedding of the corresponding
   TypeScript source; external library calls (Node `Buffer` text codecs,
   `Math.random`, the PGP primitive, the WebRTC transport) are modelled
   as explicit Lean functions or function parameters. -/

namespace P2PCore

/-! ## Base64 codec

Model of Node's `Buffer.from(key).toString('base64')` and
`Buffer.from(keyBase64, 'base64')` on well-formed input (standard
alphabet, `=` padding). Bytes are `Nat` values `< 256`. -/

/-- Standard base64 alphabet: value 0..63 to character. -/
def sextetToChar (n : Nat) : Char :=
  if n < 26 then Char.ofNat (65 + n)
  else if n < 52 then Char.ofNat (97 + (n - 26))
  else if n < 62 then Char.ofNat (48 + (n - 52))
  else if n = 62 then '+'
  else '/'

/-- Standard base64 alphabet: character to value 0..63 (0 on junk). -/
def charToSextet (c : Char) : Nat :=
  let n := c.toNat
  if 65 ≤ n ∧ n ≤ 90 then n - 65
  else if 97 ≤ n ∧ n ≤ 122 then n - 71
  else if 48 ≤ n ∧ n ≤ 57 then n + 4
  else if n = 43 then 62
  else if n = 47 then 63
  else 0

/-- Base64 encoding of a byte list, three bytes to four characters,
with `=` padding on a trailing group of one or two bytes. -/
def b64encode : List Nat → List Char
  | [] => []
  | [a] => [sextetToChar (a / 4), sextetToChar (a % 4 * 16), '=', '=']
  | [a, b] => [sextetToChar (a / 4), sextetToChar (a % 4 * 16 + b / 16),
               sextetToChar (b % 16 * 4), '=']
  | a :: b :: c :: rest =>
      sextetToChar (a / 4) :: sextetToChar (a % 4 * 16 + b / 16) ::
      sextetToChar (b % 16 * 4 + c / 64) :: sextetToChar (c % 64) :: b64encode rest

/-- Base64 decoding of a character list; `none` on a malformed shape. -/
def b64decode : List Char → Option (List Nat)
  | [] => some []
  | y1 :: y2 :: y3 :: y4 :: rest =>
      if y3 = '=' ∧ y4 = '=' then
        if rest = [] then some [charToSextet y1 * 4 + charToSextet y2 / 16] else none
      else if y4 = '=' then
        if rest = [] then
          some [charToSextet y1 * 4 + charToSextet y2 / 16,
                charToSextet y2 % 16 * 16 + charToSextet y3 / 4]
        else none
      else
        (b64decode rest).map fun tl =>
          (charToSextet y1 * 4 + charToSextet y2 / 16) ::
          (charToSextet y2 % 16 * 16 + charToSextet y3 / 4) ::
          (charToSextet y3 % 4 * 64 + charToSextet y4) :: tl
  | _ => none

theorem charToSextet_sextetToChar : ∀ n, n < 64 → charToSextet (sextetToChar n) = n := by
  decide

theorem sextetToChar_ne_pad : ∀ n, n < 64 → sextetToChar n ≠ '=' := by
  decide

theorem b64decode_b64encode : ∀ bs : List Nat, (∀ x ∈ bs, x < 256) →
    b64decode (b64encode bs) = some bs
  | [], _ => by simp [b64encode, b64decode]
  | [a], h => by
    have ha : a < 256 := h a (by simp)
    have h1 := charToSextet_sextetToChar (a / 4) (by omega)
    have h2 := charToSextet_sextetToChar (a % 4 * 16) (by omega)
    simp [b64encode, b64decode, h1, h2]
    omega
  | [a, b], h => by
    have ha : a < 256 := h a (by simp)
    have hb : b < 256 := h b (by simp)
    have h1 := charToSextet_sextetToChar (a / 4) (by omega)
    have h2 := charToSextet_sextetToChar (a % 4 * 16 + b / 16) (by omega)
    have h3 := charToSextet_sextetToChar (b % 16 * 4) (by omega)
    have h3' := sextetToChar_ne_pad (b % 16 * 4) (by omega)
    simp [b64encode, b64decode, h1, h2, h3, h3']
    omega
  | a :: b :: c :: rest, h => by
    have ha : a < 256 := h a (by simp)
    have hb : b < 256 := h b (by simp)
    have hc : c < 256 := h c (by simp)
    have ih := b64decode_b64encode rest (fun x hx => h x (by simp at hx ⊢; tauto))
    have h1 := charToSextet_sextetToChar (a / 4) (by omega)
    have h2 := charToSextet_sextetToChar (a % 4 * 16 + b / 16) (by omega)
    have h3 := charToSextet_sextetToChar (b % 16 * 4 + c / 64) (by omega)
    have h4 := charToSextet_sextetToChar (c % 64) (by omega)
    have h3' := sextetToChar_ne_pad (b % 16 * 4 + c / 64) (by omega)
    have h4' := sextetToChar_ne_pad (c % 64) (by omega)
    simp [b64encode, b64decode, h1, h2, h3, h4, h3', h4', ih]
    omega

/-! ## UTF-8 codec

Model of Node's `Buffer.from(plaintext, 'utf8')` and
`buffer.toString('utf8')` on well-formed input. Text is a `List Char`
(valid Unicode scalar values, as JavaScript strings holding no lone
surrogates). -/

/-- UTF-8 encoding of one scalar value, one to four bytes. -/
def utf8EncodeChar (c : Char) : List Nat :=
  if c.toNat < 128 then [c.toNat]
  else if c.toNat < 2048 then [192 + c.toNat / 64, 128 + c.toNat % 64]
  else if c.toNat < 65536 then
    [224 + c.toNat / 4096, 128 + c.toNat / 64 % 64, 128 + c.toNat % 64]
  else
    [240 + c.toNat / 262144, 128 + c.toNat / 4096 % 64, 128 + c.toNat / 64 % 64,
     128 + c.toNat % 64]

/-- UTF-8 encoding of a character list. -/
def utf8Encode : List Char → List Nat
  | [] => []
  | c :: cs => utf8EncodeChar c ++ utf8Encode cs

/- UTF-8 decoding of a byte list; `none` on a malformed sequence.
The helpers `utf8Dec2`, `utf8Dec3`, `utf8Dec4` decode the continuation
bytes of a two-, three- or four-byte sequence whose lead byte was `b`. -/
mutual

def utf8Decode : List Nat → Option (List Char)
  | [] => some []
  | b :: rest =>
    if b < 128 then (utf8Decode rest).map (Char.ofNat b :: ·)
    else if b < 192 then none
    else if b < 224 then utf8Dec2 b rest
    else if b < 240 then utf8Dec3 b rest
    else utf8Dec4 b rest
termination_by l => 2 * l.length
decreasing_by all_goals simp <;> omega

def utf8Dec2 : Nat → List Nat → Option (List Char)
  | b, b2 :: r =>
    if 128 ≤ b2 ∧ b2 < 192 then
      (utf8Decode r).map (Char.ofNat ((b - 192) * 64 + (b2 - 128)) :: ·)
    else none
  | _, [] => none
termination_by _ rest => 2 * rest.length + 1
decreasing_by all_goals simp <;> omega

def utf8Dec3 : Nat → List Nat → Option (List Char)
  | b, b2 :: b3 :: r =>
    if (128 ≤ b2 ∧ b2 < 192) ∧ (128 ≤ b3 ∧ b3 < 192) then
      (utf8Decode r).map
        (Char.ofNat ((b - 224) * 4096 + (b2 - 128) * 64 + (b3 - 128)) :: ·)
    else none
  | _, _ => none
termination_by _ rest => 2 * rest.length + 1
decreasing_by all_goals simp <;> omega

def utf8Dec4 : Nat → List Nat → Option (List Char)
  | b, b2 :: b3 :: b4 :: r =>
    if (128 ≤ b2 ∧ b2 < 192) ∧ (128 ≤ b3 ∧ b3 < 192) ∧ (128 ≤ b4 ∧ b4 < 192) then
      (utf8Decode r).map
        (Char.ofNat ((b - 240) * 262144 + (b2 - 128) * 4096 + (b3 - 128) * 64 + (b4 - 128)) :: ·)
    else none
  | _, _ => none
termination_by _ rest => 2 * rest.length + 1
decreasing_by all_goals simp <;> omega

end

theorem char_toNat_lt (c : Char) : c.toNat < 1114112 := by
  have h := c.valid
  rcases h with h | ⟨_, h2⟩
  · exact Nat.lt_trans h (by decide)
  · exact h2

theorem utf8EncodeChar_lt_256 (c : Char) : ∀ x ∈ utf8EncodeChar c, x < 256 := by
  have hv := char_toNat_lt c
  unfold utf8EncodeChar
  split
  · intro x hx; simp at hx; omega
  · split
    · intro x hx; simp at hx; rcases hx with h | h <;> omega
    · split
      · intro x hx; simp at hx; rcases hx with h | h | h <;> omega
      · intro x hx; simp at hx; rcases hx with h | h | h | h <;> omega

theorem utf8Encode_lt_256 : ∀ s : List Char, ∀ x ∈ utf8Encode s, x < 256
  | [], _, hx => by simp [utf8Encode] at hx
  | c :: cs, x, hx => by
    simp only [utf8Encode, List.mem_append] at hx
    rcases hx with h | h
    · exact utf8EncodeChar_lt_256 c x h
    · exact utf8Encode_lt_256 cs x h

theorem utf8Decode_utf8Encode : ∀ s : List Char, utf8Decode (utf8Encode s) = some s
  | [] => by simp [utf8Encode, utf8Decode]
  | c :: cs => by
    have ih := utf8Decode_utf8Encode cs
    have hv := char_toNat_lt c
    show utf8Decode (utf8EncodeChar c ++ utf8Encode cs) = some (c :: cs)
    by_cases h1 : c.toNat < 128
    · have he : utf8EncodeChar c = [c.toNat] := by unfold utf8EncodeChar; simp [h1]
      rw [he]
      simp [utf8Decode, h1, ih]
    · by_cases h2 : c.toNat < 2048
      · have he : utf8EncodeChar c = [192 + c.toNat / 64, 128 + c.toNat % 64] := by
          unfold utf8EncodeChar; simp [h1, h2]
        rw [he]
        have c1 : ¬(192 + c.toNat / 64 < 128) := by omega
        have c2 : ¬(192 + c.toNat / 64 < 192) := by omega
        have c3 : 192 + c.toNat / 64 < 224 := by omega
        have c4 : 128 ≤ 128 + c.toNat % 64 ∧ 128 + c.toNat % 64 < 192 := by omega
        simp [utf8Decode, utf8Dec2, c1, c2, c3, c4, ih]
        have hn : c.toNat / 64 * 64 + c.toNat % 64 = c.toNat := by omega
        rw [hn, Char.ofNat_toNat]
      · by_cases h3 : c.toNat < 65536
        · have he : utf8EncodeChar c =
              [224 + c.toNat / 4096, 128 + c.toNat / 64 % 64, 128 + c.toNat % 64] := by
            unfold utf8EncodeChar; simp [h1, h2, h3]
          rw [he]
          have c1 : ¬(224 + c.toNat / 4096 < 128) := by omega
          have c2 : ¬(224 + c.toNat / 4096 < 192) := by omega
          have c3 : ¬(224 + c.toNat / 4096 < 224) := by omega
          have c3' : 224 + c.toNat / 4096 < 240 := by omega
          have c4 : (128 ≤ 128 + c.toNat / 64 % 64 ∧ 128 + c.toNat / 64 % 64 < 192) ∧
              128 ≤ 128 + c.toNat % 64 ∧ 128 + c.toNat % 64 < 192 := by omega
          simp [utf8Decode, utf8Dec3, c1, c2, c3, c3', c4, ih]
          have hn : c.toNat / 4096 * 4096 + c.toNat / 64 % 64 * 64 + c.toNat % 64 = c.toNat := by
            omega
          rw [hn, Char.ofNat_toNat]
        · have he : utf8EncodeChar c = [240 + c.toNat / 262144, 128 + c.toNat / 4096 % 64,
              128 + c.toNat / 64 % 64, 128 + c.toNat % 64] := by
            unfold utf8EncodeChar; simp [h1, h2, h3]
          rw [he]
          have c1 : ¬(240 + c.toNat / 262144 < 128) := by omega
          have c2 : ¬(240 + c.toNat / 262144 < 192) := by omega
          have c3 : ¬(240 + c.toNat / 262144 < 224) := by omega
          have c3' : ¬(240 + c.toNat / 262144 < 240) := by omega
          have c4 : (128 ≤ 128 + c.toNat / 4096 % 64 ∧ 128 + c.toNat / 4096 % 64 < 192) ∧
              (128 ≤ 128 + c.toNat / 64 % 64 ∧ 128 + c.toNat / 64 % 64 < 192) ∧
              128 ≤ 128 + c.toNat % 64 ∧ 128 + c.toNat % 64 < 192 := by omega
          simp [utf8Decode, utf8Dec4, c1, c2, c3, c3', c4, ih]
          have hn : c.toNat / 262144 * 262144 + c.toNat / 4096 % 64 * 4096 +
              c.toNat / 64 % 64 * 64 + c.toNat % 64 = c.toNat := by omega
          rw [hn, Char.ofNat_toNat]

/-! ## Association list model of a JavaScript `Map`

`Map.get` / `Map.set` / `Map.delete` preserve key uniqueness; keys here
are peer identifiers (strings). -/

def alGet {α : Type} : List (String × α) → String → Option α
  | [], _ => none
  | (k, v) :: tl, key => if k = key then some v else alGet tl key

def alSet {α : Type} : List (String × α) → String → α → List (String × α)
  | [], key, v => [(key, v)]
  | (k, w) :: tl, key, v => if k = key then (key, v) :: tl else (k, w) :: alSet tl key v

def alErase {α : Type} : List (String × α) → String → List (String × α)
  | [], _ => []
  | (k, w) :: tl, key => if k = key then tl else (k, w) :: alErase tl key

theorem alGet_alSet_self {α : Type} : ∀ (l : List (String × α)) (k : String) (v : α),
    alGet (alSet l k v) k = some v
  | [], k, v => by simp [alGet, alSet]
  | (k', w) :: tl, k, v => by
    by_cases h : k' = k
    · simp [alGet, alSet, h]
    · simp [alGet, alSet, h]
      exact alGet_alSet_self tl k v

theorem alGet_alSet_other {α : Type} : ∀ (l : List (String × α)) (k q : String) (v : α),
    q ≠ k → alGet (alSet l k v) q = alGet l q
  | [], k, q, v, hqk => by simp [alGet, alSet, Ne.symm hqk]
  | (k', w) :: tl, k, q, v, hqk => by
    by_cases h : k' = k
    · subst h
      simp [alGet, alSet, Ne.symm hqk]
    · by_cases h2 : k' = q
      · subst h2
        simp [alGet, alSet, h]
      · simp [alGet, alSet, h, h2]
        exact alGet_alSet_other tl k q v hqk

theorem alGet_eq_none_of_not_mem {α : Type} : ∀ (l : List (String × α)) (k : String),
    k ∉ l.map Prod.fst → alGet l k = none
  | [], _, _ => rfl
  | (k', w) :: tl, k, h => by
    simp only [List.map_cons, List.mem_cons] at h
    push_neg at h
    have hne : k' ≠ k := Ne.symm h.1
    simp [alGet, hne]
    exact alGet_eq_none_of_not_mem tl k h.2

theorem alGet_alErase_self {α : Type} : ∀ (l : List (String × α)) (k : String),
    (l.map Prod.fst).Nodup → alGet (alErase l k) k = none
  | [], k, _ => rfl
  | (k', w) :: tl, k, hnd => by
    simp only [List.map_cons, List.nodup_cons] at hnd
    by_cases h : k' = k
    · subst h
      simp only [alErase, if_pos rfl]
      exact alGet_eq_none_of_not_mem tl k' hnd.1
    · simp [alErase, alGet, h]
      exact alGet_alErase_self tl k hnd.2

/-! ## AESService (src/src/types/index.ts, `class AESService`)

The service keeps a RAM-only `Map` of session keys per peer. A key's
`Uint8Array` is modelled as a reference (`keyRef`) into a heap of byte
buffers (`AESState.buffers`), so that the in-place `fill(0)` performed
on teardown is observable through previously captured references.
`Math.random()` is modelled by an explicit byte source `rand`
(`Math.floor(Math.random() * 256)` becomes `rand i % 256`), and
`Date.now()` by an explicit `now` argument. -/

/-- Node `Buffer.from(s, 'base64')` on well-formed base64 input
(lenient repair of malformed input is not modelled). -/
def bufferFromBase64 (s : List Char) : List Nat := (b64decode s).getD []

/-- Node `Buffer.from(bs).toString('base64')`. -/
def bufferToBase64 (bs : List Nat) : List Char := b64encode bs

/-- Node `Buffer.from(s, 'utf8')`. -/
def bufferFromUtf8 (s : List Char) : List Nat := utf8Encode s

/-- Node `buffer.toString('utf8')` on well-formed UTF-8 input. -/
def bufferToUtf8 (bs : List Nat) : List Char := (utf8Decode bs).getD []

/-- `AESKey` record of the source: `key` is the `Uint8Array` (here a
reference into the buffer heap), `createdAt` the creation timestamp. -/
structure AESKey where
  keyRef : Nat
  createdAt : Nat
deriving DecidableEq

/-- State of the `AESService` singleton: the RAM-only `sessionKeys` map
plus the heap of live `Uint8Array` buffers. -/
structure AESState where
  sessionKeys : List (String × AESKey)
  buffers : List (List Nat)
deriving DecidableEq

/-- Shape of `encrypt`'s result: `{ iv, ciphertext, tag }`, each base64. -/
structure EncryptedMsg where
  iv : List Char
  ciphertext : List Char
  tag : List Char
deriving DecidableEq

/-- In-place `buffer.fill(0)`: overwrite the buffer at heap index `r`
with zeros, preserving its length. -/
def zeroRef (bufs : List (List Nat)) (r : Nat) : List (List Nat) :=
  bufs.set r (List.replicate (bufs.getD r []).length 0)

namespace AESService

/-- `generateSessionKey(peerId)`: 32 random bytes stored keyed by
`peerId` (a fresh buffer appended to the heap); returns the new key. -/
def generateSessionKey (st : AESState) (rand : Nat → Nat) (now : Nat) (peerId : String) :
    AESState × List Nat :=
  let key := (List.range 32).map fun i => rand i % 256
  ({ sessionKeys := alSet st.sessionKeys peerId ⟨st.buffers.length, now⟩,
     buffers := st.buffers ++ [key] }, key)

/-- `setSessionKey(peerId, keyBase64)`: decode the base64 key material
into a fresh `Uint8Array` and store it, overwriting any prior key. -/
def setSessionKey (st : AESState) (peerId : String) (keyBase64 : List Char) (now : Nat) :
    AESState :=
  let key := bufferFromBase64 keyBase64
  { sessionKeys := alSet st.sessionKeys peerId ⟨st.buffers.length, now⟩,
    buffers := st.buffers ++ [key] }

/-- `getSessionKey(peerId)`: the entry's key bytes, or `null`. -/
def getSessionKey (st : AESState) (peerId : String) : Option (List Nat) :=
  match alGet st.sessionKeys peerId with
  | some e => some (st.buffers.getD e.keyRef [])
  | none => none

/-- `hasSessionKey(peerId)`. -/
def hasSessionKey (st : AESState) (peerId : String) : Bool :=
  (alGet st.sessionKeys peerId).isSome

/-- `exportKey(peerId)`: base64 text of the key, or `null`. -/
def exportKey (st : AESState) (peerId : String) : Option (List Char) :=
  match getSessionKey st peerId with
  | none => none
  | some key => some (bufferToBase64 key)

/-- `encrypt(peerId, plaintext)`: throws when no session key is
installed; otherwise draws a fresh 12-byte IV and returns the
`{ iv, ciphertext, tag }` envelope (the source's placeholder cipher
carries the base64 of the UTF-8 plaintext bytes and an all-zero tag). -/
def encrypt (st : AESState) (rand : Nat → Nat) (peerId : String) (plaintext : List Char) :
    Except String EncryptedMsg :=
  match getSessionKey st peerId with
  | none => .error ("No session key for peer: " ++ peerId)
  | some _ =>
    let iv := (List.range 12).map fun i => rand i % 256
    let plaintextBytes := bufferFromUtf8 plaintext
    .ok { iv := bufferToBase64 iv,
          ciphertext := bufferToBase64 plaintextBytes,
          tag := bufferToBase64 (List.replicate 16 0) }

/-- `decrypt(peerId, data)`: throws when no session key is installed;
otherwise recovers the plaintext from the envelope's ciphertext. -/
def decrypt (st : AESState) (peerId : String) (data : EncryptedMsg) :
    Except String (List Char) :=
  match getSessionKey st peerId with
  | none => .error ("No session key for peer: " ++ peerId)
  | some _ => .ok (bufferToUtf8 (bufferFromBase64 data.ciphertext))

/-- `destroySessionKey(peerId)`: zero the key's bytes in place, then
remove the map entry; no-op when no entry exists. -/
def destroySessionKey (st : AESState) (peerId : String) : AESState :=
  match alGet st.sessionKeys peerId with
  | some e => { sessionKeys := alErase st.sessionKeys peerId,
                buffers := zeroRef st.buffers e.keyRef }
  | none => st

/-- `destroyAllKeys()`: zero every stored key's bytes, then clear. -/
def destroyAllKeys (st : AESState) : AESState :=
  { sessionKeys := [],
    buffers := st.sessionKeys.foldl (fun bufs entry => zeroRef bufs entry.2.keyRef) st.buffers }

/-- `getActiveSessionCount()`. -/
def getActiveSessionCount (st : AESState) : Nat := st.sessionKeys.length

end AESService

/-! ## Heap lemmas -/

theorem getD_set_self {α : Type} (d : α) : ∀ (l : List α) (i : Nat) (v : α), i < l.length →
    (l.set i v).getD i d = v
  | [], i, v, h => absurd h (by simp)
  | a :: tl, 0, v, _ => rfl
  | a :: tl, i + 1, v, h => getD_set_self d tl i v (by simpa using h)

theorem getD_set_ne {α : Type} (d : α) : ∀ (l : List α) (i j : Nat) (v : α), i ≠ j →
    (l.set i v).getD j d = l.getD j d
  | [], _, _, _, _ => by simp [List.set]
  | a :: tl, 0, 0, v, h => absurd rfl h
  | a :: tl, 0, j + 1, v, _ => rfl
  | a :: tl, i + 1, 0, v, _ => rfl
  | a :: tl, i + 1, j + 1, v, h => getD_set_ne d tl i j v (fun hh => h (by omega))

theorem getD_default_of_le {α : Type} (d : α) : ∀ (l : List α) (i : Nat), l.length ≤ i →
    l.getD i d = d
  | [], i, _ => by cases i <;> rfl
  | a :: tl, 0, h => absurd h (by simp)
  | a :: tl, i + 1, h => getD_default_of_le d tl i (by simpa using h)

theorem set_of_le {α : Type} : ∀ (l : List α) (i : Nat) (v : α), l.length ≤ i → l.set i v = l
  | [], _, _, _ => by simp
  | a :: tl, 0, v, h => absurd h (by simp)
  | a :: tl, i + 1, v, h => by
    simp only [List.set]
    rw [set_of_le tl i v (by simpa using h)]

theorem getD_append_self {α : Type} (d : α) : ∀ (l : List α) (v : α),
    (l ++ [v]).getD l.length d = v
  | [], v => rfl
  | a :: tl, v => getD_append_self d tl v

theorem zeroRef_getD_self (bufs : List (List Nat)) (r : Nat) :
    (zeroRef bufs r).getD r [] = List.replicate (bufs.getD r []).length 0 := by
  by_cases h : r < bufs.length
  · exact getD_set_self [] bufs r _ h
  · have hle : bufs.length ≤ r := by omega
    rw [zeroRef, set_of_le bufs r _ hle, getD_default_of_le [] bufs r hle]
    rfl

theorem zeroRef_getD_ne (bufs : List (List Nat)) (r r' : Nat) (h : r ≠ r') :
    (zeroRef bufs r).getD r' [] = bufs.getD r' [] :=
  getD_set_ne [] bufs r r' _ h

theorem zeroRef_length_getD (bufs : List (List Nat)) (r r' : Nat) :
    ((zeroRef bufs r).getD r' []).length = (bufs.getD r' []).length := by
  by_cases h : r = r'
  · subst h
    rw [zeroRef_getD_self]
    simp
  · rw [zeroRef_getD_ne bufs r r' h]

theorem zeroRef_allZero (bufs : List (List Nat)) (r : Nat) :
    ∀ x ∈ (zeroRef bufs r).getD r [], x = 0 := by
  rw [zeroRef_getD_self]
  intro x hx
  exact List.eq_of_mem_replicate hx

theorem zeroRef_preserve_allZero (bufs : List (List Nat)) (r' r : Nat)
    (h : ∀ x ∈ bufs.getD r [], x = 0) : ∀ x ∈ (zeroRef bufs r').getD r [], x = 0 := by
  by_cases he : r' = r
  · subst he
    exact zeroRef_allZero bufs r'
  · rw [zeroRef_getD_ne bufs r' r he]
    exact h

theorem foldZero_preserve : ∀ (entries : List (String × AESKey)) (bufs : List (List Nat))
    (r : Nat), (∀ x ∈ bufs.getD r [], x = 0) →
    ∀ x ∈ (entries.foldl (fun b e => zeroRef b e.2.keyRef) bufs).getD r [], x = 0
  | [], _, _, h => h
  | e :: tl, bufs, r, h =>
    foldZero_preserve tl (zeroRef bufs e.2.keyRef) r
      (zeroRef_preserve_allZero bufs e.2.keyRef r h)

theorem foldZero_allZero : ∀ (entries : List (String × AESKey)) (bufs : List (List Nat))
    (r : Nat), r ∈ entries.map (fun e => e.2.keyRef) →
    ∀ x ∈ (entries.foldl (fun b e => zeroRef b e.2.keyRef) bufs).getD r [], x = 0
  | [], _, _, hr => absurd hr (by simp)
  | e :: tl, bufs, r, hr => by
    by_cases h : r ∈ tl.map (fun en => en.2.keyRef)
    · exact foldZero_allZero tl (zeroRef bufs e.2.keyRef) r h
    · have hre : r = e.2.keyRef := by
        simp only [List.map_cons, List.mem_cons] at hr
        tauto
      subst hre
      exact foldZero_preserve tl (zeroRef bufs e.2.keyRef) e.2.keyRef
        (zeroRef_allZero bufs e.2.keyRef)

theorem alGet_mem_keyRef : ∀ (l : List (String × AESKey)) (k : String) (e : AESKey),
    alGet l k = some e → e.keyRef ∈ l.map (fun en => en.2.keyRef)
  | [], k, e, h => by simp [alGet] at h
  | (k', w) :: tl, k, e, h => by
    by_cases hk : k' = k
    · simp only [alGet, if_pos hk, Option.some.injEq] at h
      subst h
      simp
    · simp only [alGet, if_neg hk] at h
      simp only [List.map_cons, List.mem_cons]
      exact Or.inr (alGet_mem_keyRef tl k e h)

/-! ## Claim theorems for the session key store and codec -/

/-- C5: key destruction zeroises before removal — after
`destroySessionKey(peerId)` the stored key is gone, the key's buffer
(still reachable through a previously captured reference) has every
byte overwritten with zero at unchanged length; `destroyAllKeys()`
does the same for every stored key and leaves the store empty. -/
theorem destroy_zeroises (st : AESState) (p : String) (e : AESKey)
    (hnd : (st.sessionKeys.map Prod.fst).Nodup)
    (hk : alGet st.sessionKeys p = some e) :
    AESService.getSessionKey (AESService.destroySessionKey st p) p = none ∧
    ((AESService.destroySessionKey st p).buffers.getD e.keyRef []).length
        = (st.buffers.getD e.keyRef []).length ∧
    (∀ x ∈ (AESService.destroySessionKey st p).buffers.getD e.keyRef [], x = 0) ∧
    (AESService.destroyAllKeys st).sessionKeys = [] ∧
    ∀ q e', alGet st.sessionKeys q = some e' →
      ∀ x ∈ (AESService.destroyAllKeys st).buffers.getD e'.keyRef [], x = 0 := by
  have hd : AESService.destroySessionKey st p =
      { sessionKeys := alErase st.sessionKeys p, buffers := zeroRef st.buffers e.keyRef } := by
    rw [AESService.destroySessionKey, hk]
  refine ⟨?_, ?_, ?_, rfl, ?_⟩
  · rw [AESService.getSessionKey, hd]
    simp [alGet_alErase_self st.sessionKeys p hnd]
  · rw [hd]
    exact zeroRef_length_getD st.buffers e.keyRef e.keyRef
  · rw [hd]
    exact zeroRef_allZero st.buffers e.keyRef
  · intro q e' hq
    have hmem := alGet_mem_keyRef st.sessionKeys q e' hq
    simpa [AESService.destroyAllKeys] using
      foldZero_allZero st.sessionKeys st.buffers e'.keyRef hmem

def wSt5 : AESState := ⟨[("p", ⟨0, 0⟩)], [[1, 2, 3]]⟩

theorem destroy_zeroises_witness :
    AESService.getSessionKey (AESService.destroySessionKey wSt5 "p") "p" = none ∧
    ((AESService.destroySessionKey wSt5 "p").buffers.getD 0 []).length
        = (wSt5.buffers.getD 0 []).length ∧
    (∀ x ∈ (AESService.destroySessionKey wSt5 "p").buffers.getD 0 [], x = 0) ∧
    (AESService.destroyAllKeys wSt5).sessionKeys = [] ∧
    ∀ q e', alGet wSt5.sessionKeys q = some e' →
      ∀ x ∈ (AESService.destroyAllKeys wSt5).buffers.getD e'.keyRef [], x = 0 :=
  destroy_zeroises wSt5 "p" ⟨0, 0⟩ (by simp [wSt5]) (by rfl)

/-- C6: encrypt/decrypt round trip — whenever `encrypt(peerId, plaintext)`
succeeds (a session key is installed), `decrypt(peerId, ·)` of its
result recovers the original plaintext. -/
theorem encrypt_decrypt_roundtrip (st : AESState) (rand : Nat → Nat) (p : String)
    (pt : List Char) (e : EncryptedMsg)
    (he : AESService.encrypt st rand p pt = .ok e) :
    AESService.decrypt st p e = .ok pt := by
  unfold AESService.encrypt at he
  cases hk : AESService.getSessionKey st p with
  | none =>
    rw [hk] at he
    exact absurd he (by simp)
  | some k =>
    rw [hk] at he
    simp only [Except.ok.injEq] at he
    have hct : e.ciphertext = bufferToBase64 (bufferFromUtf8 pt) := by
      rw [← he]
    unfold AESService.decrypt
    rw [hk, hct]
    unfold bufferToUtf8 bufferFromBase64 bufferToBase64 bufferFromUtf8
    rw [b64decode_b64encode (utf8Encode pt) (utf8Encode_lt_256 pt)]
    simp [utf8Decode_utf8Encode pt]

def wSt6 : AESState := ⟨[("q", ⟨0, 1⟩)], [[5, 6, 7, 8]]⟩

def wEnc6 : EncryptedMsg :=
  match AESService.encrypt wSt6 (fun _ => 0) "q" ("hi".toList) with
  | .ok e => e
  | .error _ => ⟨[], [], []⟩

theorem encrypt_decrypt_roundtrip_witness :
    AESService.decrypt wSt6 "q" wEnc6 = .ok ("hi".toList) :=
  encrypt_decrypt_roundtrip wSt6 (fun _ => 0) "q" ("hi".toList) wEnc6 (by rfl)

/-- C9: NoKeyError on missing key — with no installed session key for
the peer, `encrypt` and `decrypt` both fail with the
"No session key for peer" error for every plaintext and envelope, and
being pure functions of the state they modify nothing. -/
theorem noKey_error (st : AESState) (rand : Nat → Nat) (p : String) (pt : List Char)
    (data : EncryptedMsg) (h : AESService.getSessionKey st p = none) :
    AESService.encrypt st rand p pt = .error ("No session key for peer: " ++ p) ∧
    AESService.decrypt st p data = .error ("No session key for peer: " ++ p) := by
  unfold AESService.encrypt AESService.decrypt
  rw [h]
  exact ⟨rfl, rfl⟩

theorem noKey_error_witness :
    AESService.encrypt ⟨[], []⟩ (fun _ => 0) "p" ("hi".toList)
        = .error ("No session key for peer: " ++ "p") ∧
    AESService.decrypt ⟨[], []⟩ "p" ⟨[], [], []⟩
        = .error ("No session key for peer: " ++ "p") :=
  noKey_error ⟨[], []⟩ (fun _ => 0) "p" ("hi".toList) ⟨[], [], []⟩ (by rfl)

/-- C7 counterexample: `setSessionKey` performs no length validation;
installing the base64 text "AAAA" (which decodes to three zero bytes)
stores a 3-byte key, so the 32-byte invariant is not preserved for
every input. -/
theorem setSessionKey_not_32 :
    (AESService.getSessionKey (AESService.setSessionKey ⟨[], []⟩ "p" ("AAAA".toList) 0)
        "p").map List.length = some 3 := by
  rfl

/-- C7 amended: `generateSessionKey` always produces, stores and
returns a 32-byte key (overwriting any prior key for that peer), while
`setSessionKey` stores exactly the decoded supplied material — so the
32-byte invariant is preserved by `set` only when the supplied material
decodes to 32 bytes. -/
theorem sessionKey_lengths (st : AESState) (rand : Nat → Nat) (now : Nat) (p : String)
    (s : List Char) :
    (AESService.generateSessionKey st rand now p).2.length = 32 ∧
    AESService.getSessionKey (AESService.generateSessionKey st rand now p).1 p
      = some (AESService.generateSessionKey st rand now p).2 ∧
    AESService.getSessionKey (AESService.setSessionKey st p s now) p
      = some (bufferFromBase64 s) := by
  refine ⟨by simp [AESService.generateSessionKey], ?_, ?_⟩
  · rw [AESService.generateSessionKey, AESService.getSessionKey]
    simp only [alGet_alSet_self]
    rw [getD_append_self]
  · rw [AESService.setSessionKey, AESService.getSessionKey]
    simp only [alGet_alSet_self]
    rw [getD_append_self]

/-! ## WebRTCManager (src/unnamed/part_001, `class WebRTCManager`)

The transport connection (`RTCPeerConnection`) and data channel are
external objects; their observable interactions are modelled as fields
of the per-peer record (`remoteDesc`, `appliedCandidates`,
`readyState`) and as an emitted effect list (closings, callbacks,
outbound envelopes, data-channel sends). Asynchronous externals are
passed as arguments: the answer SDP produced by `createAnswer`, the
`getPeerInfo` result, and the PGP encryption primitive (where `none`
models a thrown exception). -/

/-- `ConnectionState` of the source. -/
inductive ConnectionState where
  | idle
  | connecting
  | connected
  | disconnected
  | failed
deriving DecidableEq

/-- A network-path (ICE) candidate, opaque to the core. -/
abbrev Cand := List Char

/-- Remote session description (`RTCSessionDescription({ sdp, type })`);
`descType` embeds the source's `type` field. -/
structure SessionDesc where
  sdp : List Char
  descType : List Char
deriving DecidableEq

/-- Observable state of a transport connection (`RTCPeerConnection`):
the remote description applied to it and the candidates handed to
`addIceCandidate`, in order. -/
structure PC where
  remoteDesc : Option SessionDesc
  appliedCandidates : List Cand
deriving DecidableEq

/-- Observable state of a data channel (`RTCDataChannel`). -/
structure DataChannel where
  readyState : List Char
deriving DecidableEq

/-- The `PeerConnection` record of the source (one per peer session). -/
structure PeerConn where
  pc : PC
  dataChannel : Option DataChannel
  state : ConnectionState
  pendingCandidates : List Cand
  hasRemoteDescription : Bool
deriving DecidableEq

/-- `User` record from the identity service. -/
structure User where
  username : String
  pgp_public_key : List Char
  is_online : Bool
deriving DecidableEq

/-- Signal kinds of the source (`offer`, `answer`, `ice`). -/
inductive SignalType where
  | offer
  | answer
  | ice
deriving DecidableEq

/-- `SignalSendRequest`: body of `POST /signaling/send`; `sigType`
embeds the source's `type` field. -/
structure SignalSendRequest where
  to_user : String
  sigType : SignalType
  encrypted_payload : List Char
deriving DecidableEq

/-- Externally observable side effects of a manager operation, in
order of occurrence. -/
inductive Effect where
  | closedPC (peer : String)
  | closedDataChannel (peer : String)
  | stateChange (peer : String) (s : ConnectionState)
  | sentSignal (req : SignalSendRequest)
  | dcSend (peer : String) (data : List Char)
deriving DecidableEq

/-- State of the `WebRTCManager` singleton: the per-peer `connections`
map, the AES service state it drives, whether the polling interval
timer is live, and `currentUser`. -/
structure ManagerState where
  connections : List (String × PeerConn)
  aes : AESState
  pollingActive : Bool
  currentUser : Option String
deriving DecidableEq

/-- Offer payload shape `{ sdp, type, aesKey }` (pre-encryption);
`descType` embeds the source's `type` field. -/
structure OfferPayload where
  sdp : List Char
  descType : List Char
  aesKey : List Char
deriving DecidableEq

/-- JavaScript `String.prototype.startsWith` on character lists. -/
def listStartsWith : List Char → List Char → Bool
  | _, [] => true
  | [], _ :: _ => false
  | a :: s, b :: pat => if a = b then listStartsWith s pat else false

/-- JavaScript `String.prototype.includes`: the pattern occurs as a
contiguous substring. -/
def listContainsSub : List Char → List Char → Bool
  | [], pat => listStartsWith [] pat
  | a :: tl, pat => listStartsWith (a :: tl) pat || listContainsSub tl pat

/-- Truthiness of the collision guard
`this.currentUser && this.currentUser > peerId`. -/
def localWins : Option String → String → Bool
  | some u, peerId => decide (peerId < u)
  | none, _ => false

/-- `JSON.stringify({ sdp, type })` for the answer payload. -/
def answerJson (sdp ty : List Char) : List Char :=
  [Char.ofNat 123] ++ "\"sdp\":\"".toList ++ sdp ++ "\",\"type\":\"".toList ++ ty
    ++ "\"".toList ++ [Char.ofNat 125]

/-- `JSON.stringify({ iv, ciphertext, tag })` for an encrypted message. -/
def encJson (e : EncryptedMsg) : List Char :=
  [Char.ofNat 123] ++ "\"iv\":\"".toList ++ e.iv ++ "\",\"ciphertext\":\"".toList
    ++ e.ciphertext ++ "\",\"tag\":\"".toList ++ e.tag ++ "\"".toList ++ [Char.ofNat 125]

/-- `sendSignal(peer, type, payload)`: PGP-encrypt the payload only when
the peer has a truthy public key that does not contain "mock", falling
back to the plain payload when encryption throws; then POST the
envelope. -/
def sendSignal (pgpEncrypt : List Char → List Char → Option (List Char)) (peer : User)
    (sigType : SignalType) (payload : List Char) : SignalSendRequest :=
  let encrypted :=
    if peer.pgp_public_key ≠ [] ∧ listContainsSub peer.pgp_public_key ("mock".toList) = false
    then
      match pgpEncrypt payload peer.pgp_public_key with
      | some enc => enc
      | none => payload
    else payload
  { to_user := peer.username, sigType := sigType, encrypted_payload := encrypted }

/-- `updateState(peerId, state)`: record the state on the session when
one exists; always fire the `onStateChange` callback. -/
def updateState (st : ManagerState) (peerId : String) (s : ConnectionState) :
    ManagerState × List Effect :=
  match alGet st.connections peerId with
  | some conn =>
      ({ st with connections := alSet st.connections peerId ({ conn with state := s }) },
       [Effect.stateChange peerId s])
  | none => (st, [Effect.stateChange peerId s])

/-- `processPendingCandidates(peerId)`: apply every queued candidate in
arrival order (each via `addIceCandidate`), then clear the queue. -/
def processPendingCandidates (st : ManagerState) (peerId : String) : ManagerState :=
  match alGet st.connections peerId with
  | none => st
  | some conn =>
      let conn' : PeerConn :=
        { conn with
          pc := { conn.pc with
            appliedCandidates := conn.pc.appliedCandidates ++ conn.pendingCandidates },
          pendingCandidates := [] }
      { st with connections := alSet st.connections peerId conn' }

/-- `handleIceCandidate(peerId, candidate)`: ignore when no session
exists or the candidate is null; queue while no remote description is
applied; otherwise apply immediately. -/
def handleIceCandidate (st : ManagerState) (peerId : String) (candidate : Option Cand) :
    ManagerState :=
  match alGet st.connections peerId, candidate with
  | none, _ => st
  | _, none => st
  | some conn, some cand =>
    if !conn.hasRemoteDescription then
      let conn' : PeerConn := { conn with pendingCandidates := conn.pendingCandidates ++ [cand] }
      { st with connections := alSet st.connections peerId conn' }
    else
      let conn' : PeerConn :=
        { conn with pc := { conn.pc with
            appliedCandidates := conn.pc.appliedCandidates ++ [cand] } }
      { st with connections := alSet st.connections peerId conn' }

/-- `handleAnswer(peerId, payload)`: ignore with no session; ignore a
later answer once a remote description is applied; otherwise apply it
as the remote description, set the flag and flush the queue. -/
def handleAnswer (st : ManagerState) (peerId : String) (payload : SessionDesc) :
    ManagerState :=
  match alGet st.connections peerId with
  | none => st
  | some conn =>
    if conn.hasRemoteDescription then st
    else
      let conn' : PeerConn :=
        { conn with
          pc := { conn.pc with remoteDesc := some payload }
          hasRemoteDescription := true }
      processPendingCandidates
        { st with connections := alSet st.connections peerId conn' } peerId

/-- Responder path of `handleOffer` (the code after the collision
check): report `connecting`, install the received session key when
truthy, create a fresh transport connection and `PeerConnection` entry,
apply the offer as the remote description, set the flag, flush the
queue, create an answer and send it back when `getPeerInfo` finds the
peer. -/
def respondToOffer (st : ManagerState) (peerId : String) (payload : OfferPayload)
    (now : Nat) (answerSdp : List Char) (peerInfo : Option User)
    (pgpEncrypt : List Char → List Char → Option (List Char)) : ManagerState × List Effect :=
  let su := updateState st peerId .connecting
  let st2 :=
    if payload.aesKey ≠ [] then
      { su.1 with aes := AESService.setSessionKey su.1.aes peerId payload.aesKey now }
    else su.1
  let fresh : PeerConn :=
    { pc := { remoteDesc := none, appliedCandidates := [] },
      dataChannel := none, state := .connecting,
      pendingCandidates := [], hasRemoteDescription := false }
  let st3 := { st2 with connections := alSet st2.connections peerId fresh }
  let conns4 :=
    match alGet st3.connections peerId with
    | some conn => alSet st3.connections peerId
        ({ conn with pc := { conn.pc with
             remoteDesc := some ⟨payload.sdp, payload.descType⟩ } })
    | none => st3.connections
  let st4 := { st3 with connections := conns4 }
  let st5 :=
    match alGet st4.connections peerId with
    | some conn =>
        let conns5 := alSet st4.connections peerId ({ conn with hasRemoteDescription := true })
        processPendingCandidates { st4 with connections := conns5 } peerId
    | none => st4
  match peerInfo with
  | some peer =>
      (st5, su.2 ++ [Effect.sentSignal (sendSignal pgpEncrypt peer .answer
        (answerJson answerSdp ("answer".toList)))])
  | none => (st5, su.2)

/-- `handleOffer(peerId, payload)` — responder entry point with the
collision (glare) check: with an existing session, the side whose
username sorts higher keeps its own offer and ignores the incoming one;
otherwise the existing transport connection is closed and its entry
removed before answering as a fresh responder. -/
def handleOffer (st : ManagerState) (peerId : String) (payload : OfferPayload)
    (now : Nat) (answerSdp : List Char) (peerInfo : Option User)
    (pgpEncrypt : List Char → List Char → Option (List Char)) : ManagerState × List Effect :=
  match alGet st.connections peerId with
  | some _ =>
    if localWins st.currentUser peerId then (st, [])
    else
      let r := respondToOffer { st with connections := alErase st.connections peerId }
        peerId payload now answerSdp peerInfo pgpEncrypt
      (r.1, Effect.closedPC peerId :: r.2)
  | none => respondToOffer st peerId payload now answerSdp peerInfo pgpEncrypt

/-- `sendMessage(peerId, message)`: false without side effects when no
open data channel exists; otherwise send the AES envelope (JSON), or
the plain message when encryption throws, and return true. -/
def sendMessage (st : ManagerState) (rand : Nat → Nat) (peerId : String)
    (message : List Char) : Bool × List Effect :=
  match alGet st.connections peerId with
  | none => (false, [])
  | some conn =>
    match conn.dataChannel with
    | none => (false, [])
    | some dc =>
      if dc.readyState ≠ "open".toList then (false, [])
      else
        let toSend :=
          match AESService.encrypt st.aes rand peerId message with
          | .ok enc => encJson enc
          | .error _ => message
        (true, [Effect.dcSend peerId toSend])

/-- `stopPolling()`: clear the polling interval when one is live. -/
def stopPolling (st : ManagerState) : ManagerState :=
  if st.pollingActive then { st with pollingActive := false } else st

/-- `disconnect(peerId)`: with a session, close its data channel (when
present) and transport connection, destroy the session key and remove
the entry; then — unconditionally — stop the signaling poll loop. -/
def disconnect (st : ManagerState) (peerId : String) : ManagerState × List Effect :=
  match alGet st.connections peerId with
  | some conn =>
    let st' : ManagerState :=
      { st with
        connections := alErase st.connections peerId
        aes := AESService.destroySessionKey st.aes peerId }
    (stopPolling st',
     (match conn.dataChannel with
      | some _ => [Effect.closedDataChannel peerId]
      | none => []) ++ [Effect.closedPC peerId])
  | none => (stopPolling st, [])

/-- `getConnectionStatus(peerId)`: `idle` without a session, else the
session's state. -/
def getConnectionStatus (st : ManagerState) (peerId : String) : ConnectionState :=
  match alGet st.connections peerId with
  | some conn => conn.state
  | none => .idle

/-! ## Claim theorems for the negotiation manager -/

theorem respondToOffer_conn (st : ManagerState) (peerId : String) (payload : OfferPayload)
    (now : Nat) (answerSdp : List Char) (peerInfo : Option User)
    (pgpEncrypt : List Char → List Char → Option (List Char)) :
    alGet (respondToOffer st peerId payload now answerSdp peerInfo pgpEncrypt).1.connections
        peerId
      = some { pc := { remoteDesc := some ⟨payload.sdp, payload.descType⟩
                       appliedCandidates := [] }
               dataChannel := none
               state := .connecting
               pendingCandidates := []
               hasRemoteDescription := true } := by
  unfold respondToOffer updateState processPendingCandidates
  cases hu : alGet st.connections peerId <;>
    by_cases hk : payload.aesKey = [] <;>
      cases peerInfo <;>
        simp [hu, hk, alGet_alSet_self]

/-- C1: deterministic collision resolution on an incoming
connection-offer for a peer with an existing session: when the local
username sorts lexicographically higher than the peer's, the incoming
offer is ignored with no state change and no effects (the existing
session and its outstanding offer survive); otherwise the existing
transport connection is closed, the entry is removed, and the offer is
answered as a fresh responder (new session in `connecting` with the
offer applied as remote description and an empty candidate queue); and
for any two distinct identifiers exactly one side keeps its own offer,
independent of arrival order. -/
theorem offer_collision_deterministic (st : ManagerState) (u peerId : String)
    (conn : PeerConn) (payload : OfferPayload) (now : Nat) (answerSdp : List Char)
    (peerInfo : Option User) (pgpEncrypt : List Char → List Char → Option (List Char))
    (hu : st.currentUser = some u) (hc : alGet st.connections peerId = some conn) :
    (peerId < u →
      handleOffer st peerId payload now answerSdp peerInfo pgpEncrypt = (st, [])) ∧
    (¬ peerId < u →
      (handleOffer st peerId payload now answerSdp peerInfo pgpEncrypt).2.head?
          = some (Effect.closedPC peerId) ∧
      alGet (handleOffer st peerId payload now answerSdp peerInfo pgpEncrypt).1.connections
          peerId
        = some { pc := { remoteDesc := some ⟨payload.sdp, payload.descType⟩
                         appliedCandidates := [] }
                 dataChannel := none
                 state := .connecting
                 pendingCandidates := []
                 hasRemoteDescription := true }) ∧
    (u ≠ peerId → (peerId < u ↔ ¬ u < peerId)) := by
  refine ⟨fun h => ?_, fun h => ?_, fun hne => ?_⟩
  · unfold handleOffer
    simp [hc, localWins, hu, h]
  · unfold handleOffer
    simp only [hc, localWins, hu]
    rw [if_neg (by simpa using h)]
    exact ⟨rfl, respondToOffer_conn _ peerId payload now answerSdp peerInfo pgpEncrypt⟩
  · constructor
    · intro h1
      exact lt_asymm h1
    · intro h2
      exact lt_of_le_of_ne (not_lt.mp h2) (Ne.symm hne)

def wConn1 : PeerConn :=
  { pc := { remoteDesc := none, appliedCandidates := [] }
    dataChannel := none
    state := .connecting
    pendingCandidates := []
    hasRemoteDescription := false }

def wPayload1 : OfferPayload :=
  { sdp := "s".toList, descType := "offer".toList, aesKey := [] }

def wStHi : ManagerState := ⟨[("@alice", wConn1)], ⟨[], []⟩, true, some "@bob"⟩

def wStLo : ManagerState := ⟨[("@bob", wConn1)], ⟨[], []⟩, true, some "@alice"⟩

theorem offer_collision_witness :
    handleOffer wStHi "@alice" wPayload1 0 [] none (fun _ _ => none) = (wStHi, []) ∧
    alGet (handleOffer wStLo "@bob" wPayload1 0 [] none (fun _ _ => none)).1.connections
        "@bob"
      = some { pc := { remoteDesc := some ⟨wPayload1.sdp, wPayload1.descType⟩
                       appliedCandidates := [] }
               dataChannel := none
               state := .connecting
               pendingCandidates := []
               hasRemoteDescription := true } ∧
    ("@alice" < "@bob" ↔ ¬ "@bob" < "@alice") :=
  ⟨(offer_collision_deterministic wStHi "@bob" "@alice" wConn1 wPayload1 0 [] none
      (fun _ _ => none) rfl rfl).1 (String.lt_iff_toList_lt.mpr (by decide)),
   ((offer_collision_deterministic wStLo "@alice" "@bob" wConn1 wPayload1 0 [] none
      (fun _ _ => none) rfl rfl).2.1
      (fun hlt => absurd (String.lt_iff_toList_lt.mp hlt) (by decide))).2,
   (offer_collision_deterministic wStHi "@bob" "@alice" wConn1 wPayload1 0 [] none
      (fun _ _ => none) rfl rfl).2.2 (by decide)⟩

/-- C2: candidate queueing — with a session present, a received
candidate is appended to the pending queue while no remote description
is applied (the applied list untouched, so nothing is applied before a
remote description exists), applied immediately once the flag is set
(queue untouched), and the flush applies every queued candidate in
original arrival order exactly once and empties the queue; other
peers' sessions are never affected. -/
theorem candidate_queue_flush (st : ManagerState) (peerId : String) (conn : PeerConn)
    (cand : Cand) (hc : alGet st.connections peerId = some conn) :
    (conn.hasRemoteDescription = false →
      alGet (handleIceCandidate st peerId (some cand)).connections peerId
          = some ({ conn with pendingCandidates := conn.pendingCandidates ++ [cand] }) ∧
      ∀ q, q ≠ peerId → alGet (handleIceCandidate st peerId (some cand)).connections q
          = alGet st.connections q) ∧
    (conn.hasRemoteDescription = true →
      alGet (handleIceCandidate st peerId (some cand)).connections peerId
          = some ({ conn with pc :=
              { conn.pc with appliedCandidates := conn.pc.appliedCandidates ++ [cand] } }) ∧
      ∀ q, q ≠ peerId → alGet (handleIceCandidate st peerId (some cand)).connections q
          = alGet st.connections q) ∧
    (alGet (processPendingCandidates st peerId).connections peerId
        = some ({ conn with
            pc := { conn.pc with
              appliedCandidates := conn.pc.appliedCandidates ++ conn.pendingCandidates }
            pendingCandidates := [] }) ∧
      ∀ q, q ≠ peerId → alGet (processPendingCandidates st peerId).connections q
          = alGet st.connections q) := by
  refine ⟨fun h => ?_, fun h => ?_, ?_⟩
  · unfold handleIceCandidate
    simp only [hc, h]
    exact ⟨by simp [alGet_alSet_self],
           fun q hq => by simp [alGet_alSet_other st.connections peerId q _ hq]⟩
  · unfold handleIceCandidate
    simp only [hc, h]
    exact ⟨by simp [alGet_alSet_self],
           fun q hq => by simp [alGet_alSet_other st.connections peerId q _ hq]⟩
  · unfold processPendingCandidates
    simp only [hc]
    exact ⟨by simp [alGet_alSet_self],
           fun q hq => by simp [alGet_alSet_other st.connections peerId q _ hq]⟩

def wConn2 : PeerConn :=
  { pc := { remoteDesc := none, appliedCandidates := [] }
    dataChannel := none
    state := .connecting
    pendingCandidates := ["c1".toList]
    hasRemoteDescription := false }

def wSt2 : ManagerState := ⟨[("p", wConn2)], ⟨[], []⟩, true, some "me"⟩

theorem candidate_queue_flush_witness :
    alGet (handleIceCandidate wSt2 "p" (some ("c2".toList))).connections "p"
        = some ({ wConn2 with pendingCandidates := wConn2.pendingCandidates ++ ["c2".toList] }) ∧
    alGet (processPendingCandidates wSt2 "p").connections "p"
        = some ({ wConn2 with
            pc := { wConn2.pc with
              appliedCandidates := wConn2.pc.appliedCandidates ++ wConn2.pendingCandidates }
            pendingCandidates := [] }) :=
  ⟨((candidate_queue_flush wSt2 "p" wConn2 ("c2".toList) rfl).1 rfl).1,
   (candidate_queue_flush wSt2 "p" wConn2 ("c2".toList) rfl).2.2.1⟩

/-- C3: duplicate answer idempotence — delivering a connection-answer
to a session whose "remote description applied" flag is already set
leaves the manager state completely unchanged (no reapplication, no
queue change, no error). -/
theorem duplicate_answer_noop (st : ManagerState) (peerId : String) (conn : PeerConn)
    (payload : SessionDesc) (hc : alGet st.connections peerId = some conn)
    (hr : conn.hasRemoteDescription = true) :
    handleAnswer st peerId payload = st := by
  unfold handleAnswer
  simp [hc, hr]

def wConn3 : PeerConn :=
  { pc := { remoteDesc := some ⟨"s".toList, "answer".toList⟩, appliedCandidates := [] }
    dataChannel := none
    state := .connecting
    pendingCandidates := ["c1".toList]
    hasRemoteDescription := true }

def wSt3 : ManagerState := ⟨[("p", wConn3)], ⟨[], []⟩, true, some "me"⟩

theorem duplicate_answer_noop_witness :
    handleAnswer wSt3 "p" ⟨"s".toList, "answer".toList⟩ = wSt3 :=
  duplicate_answer_noop wSt3 "p" wConn3 ⟨"s".toList, "answer".toList⟩ rfl rfl

/-- C4 counterexample: `disconnect` on a peer with no session is not a
complete no-op — starting from a state with an active poll loop and no
session for "@bob", the call flips `pollingActive` off. -/
theorem disconnect_stops_polling :
    (disconnect ⟨[], ⟨[], []⟩, true, some "me"⟩ "@bob").1.pollingActive = false ∧
    (⟨[], ⟨[], []⟩, true, some "me"⟩ : ManagerState).pollingActive = true :=
  ⟨rfl, rfl⟩

/-- C4 amended: for a peer with no session, `disconnect` returns
normally with no close effects and leaves the session map and the
session key store unchanged, but it unconditionally stops the
signaling poll loop. -/
theorem disconnect_no_session (st : ManagerState) (peerId : String)
    (h : alGet st.connections peerId = none) :
    (disconnect st peerId).1.connections = st.connections ∧
    (disconnect st peerId).1.aes = st.aes ∧
    (disconnect st peerId).1.pollingActive = false ∧
    (disconnect st peerId).2 = [] := by
  unfold disconnect stopPolling
  by_cases hp : st.pollingActive <;> simp [h, hp]

theorem disconnect_no_session_witness :
    (disconnect ⟨[], ⟨[], []⟩, true, some "me"⟩ "@bob").1.connections = [] ∧
    (disconnect ⟨[], ⟨[], []⟩, true, some "me"⟩ "@bob").1.aes = ⟨[], []⟩ ∧
    (disconnect ⟨[], ⟨[], []⟩, true, some "me"⟩ "@bob").1.pollingActive = false ∧
    (disconnect ⟨[], ⟨[], []⟩, true, some "me"⟩ "@bob").2 = [] :=
  disconnect_no_session ⟨[], ⟨[], []⟩, true, some "me"⟩ "@bob" rfl

/-- C8: `sendMessage` returns false with no side effects whenever no
open data channel exists for the peer (no session, no data channel
handle, or a non-open ready state); with an open channel it transmits
exactly one payload — the encrypted envelope, or the plaintext when
encryption fails — and returns true. -/
theorem sendMessage_channel_guard (st : ManagerState) (rand : Nat → Nat) (peerId : String)
    (msg : List Char) :
    ((alGet st.connections peerId = none ∨
      (∃ conn, alGet st.connections peerId = some conn ∧ conn.dataChannel = none) ∨
      (∃ conn dc, alGet st.connections peerId = some conn ∧ conn.dataChannel = some dc ∧
        dc.readyState ≠ "open".toList)) →
      sendMessage st rand peerId msg = (false, [])) ∧
    (∀ conn dc, alGet st.connections peerId = some conn → conn.dataChannel = some dc →
      dc.readyState = "open".toList →
      sendMessage st rand peerId msg = (true,
        [Effect.dcSend peerId
          (match AESService.encrypt st.aes rand peerId msg with
           | .ok enc => encJson enc
           | .error _ => msg)])) := by
  constructor
  · intro h
    rcases h with h | ⟨conn, hc, hdc⟩ | ⟨conn, dc, hc, hdc, hrs⟩
    · simp [sendMessage, h]
    · simp [sendMessage, hc, hdc]
    · simp [sendMessage, hc, hdc]
      simpa using hrs
  · intro conn dc hc hdc hrs
    simp [sendMessage, hc, hdc, hrs]

def wConn8 : PeerConn :=
  { pc := { remoteDesc := none, appliedCandidates := [] }
    dataChannel := some ⟨"open".toList⟩
    state := .connected
    pendingCandidates := []
    hasRemoteDescription := true }

def wSt8 : ManagerState := ⟨[("q", wConn8)], ⟨[], []⟩, true, some "me"⟩

theorem sendMessage_channel_guard_witness :
    sendMessage ⟨[], ⟨[], []⟩, true, some "me"⟩ (fun _ => 0) "p" ("hi".toList)
        = (false, []) ∧
    sendMessage wSt8 (fun _ => 0) "q" ("hi".toList)
        = (true,
           [Effect.dcSend "q"
             (match AESService.encrypt (⟨[], []⟩ : AESState) (fun _ => 0) "q" ("hi".toList) with
              | .ok enc => encJson enc
              | .error _ => "hi".toList)]) :=
  ⟨(sendMessage_channel_guard ⟨[], ⟨[], []⟩, true, some "me"⟩ (fun _ => 0) "p"
      ("hi".toList)).1 (Or.inl rfl),
   (sendMessage_channel_guard wSt8 (fun _ => 0) "q" ("hi".toList)).2 wConn8
     ⟨"open".toList⟩ rfl rfl rfl⟩

/-- C10: when sending a signaling envelope, the payload travels
verbatim in plaintext (no encryption attempt, for every possible PGP
primitive) whenever the recipient's stored public key is empty or
contains the substring "mock"; the envelope is still addressed to the
peer. -/
theorem sendSignal_plain_fallback (pgpEncrypt : List Char → List Char → Option (List Char))
    (peer : User) (sigType : SignalType) (payload : List Char)
    (h : peer.pgp_public_key = [] ∨
      listContainsSub peer.pgp_public_key ("mock".toList) = true) :
    (sendSignal pgpEncrypt peer sigType payload).encrypted_payload = payload ∧
    (sendSignal pgpEncrypt peer sigType payload).to_user = peer.username := by
  have h2 : ¬(peer.pgp_public_key ≠ [] ∧
      listContainsSub peer.pgp_public_key ("mock".toList) = false) := by
    rcases h with h | h
    · rintro ⟨hne, -⟩
      exact hne h
    · rintro ⟨-, hf⟩
      rw [h] at hf
      cases hf
  constructor
  · simp only [sendSignal]
    rw [if_neg h2]
  · rfl

def wUser10 : User :=
  { username := "@bob", pgp_public_key := "mock-key-abc".toList, is_online := true }

theorem sendSignal_plain_fallback_witness :
    (sendSignal (fun p _ => some ("ENC".toList ++ p)) wUser10 .offer
        ("payload".toList)).encrypted_payload = "payload".toList ∧
    (sendSignal (fun p _ => some ("ENC".toList ++ p)) wUser10 .offer
        ("payload".toList)).to_user = wUser10.username :=
  sendSignal_plain_fallback (fun p _ => some ("ENC".toList ++ p)) wUser10 .offer
    ("payload".toList) (Or.inr (by decide))

end P2PCore
